import Mathlib

/-
Verification of the engine-resolver core (src/src/core/engine-resolver.ts).

The TypeScript source is shallowly embedded: the pure computation (version
comparison, deduplication, the match/fallback selection, the path-heuristic
version extraction, the association-field handling) is translated directly,
while the effectful boundaries (filesystem reads, registry queries, the
outcome of reading the .uproject file) are passed in as explicit inputs.
JavaScript-specific behaviours that the logic depends on are modelled
explicitly: truthiness of strings and numbers, `parseInt` prefix parsing,
`String.replace` replacing only the first occurrence, and the stable,
comparator-driven `Array.sort`, modelled with `List.mergeSort`.
-/

set_option maxHeartbeats 1000000

/-- Version record parsed from an engine's Build.version / UnrealEditor.version
descriptor (fields as in the JSON descriptors the source reads). -/
structure EngineVersionInfo where
  MajorVersion : Int
  MinorVersion : Int
  PatchVersion : Int
  Changelist : Int
  CompatibleChangelist : Int
  IsLicenseeVersion : Int
  IsPromotedBuild : Int
  BranchName : String
  BuildId : String
  deriving DecidableEq, Repr

/-- A discovered engine installation (fields as used by engine-resolver.ts). -/
structure EngineInstallation where
  path : String
  associationId : String
  displayName : String
  installedDate : Option String := none
  version : Option EngineVersionInfo := none
  deriving DecidableEq, Repr

/-- A project's declared engine association, read from the .uproject file. -/
structure EngineAssociation where
  guid : String
  name : String
  deriving DecidableEq, Repr

/-- The result record returned by `EngineResolver.resolveEngine`. -/
structure EngineDetectionResult where
  engine : Option EngineInstallation := none
  uprojectEngine : Option EngineAssociation := none
  warnings : List String := []
  error : Option String := none
  deriving DecidableEq, Repr

/-- `EngineResolver.compareVersions` (lines 353-369): lexicographic numeric
difference on major, minor, patch, changelist; an absent version compares
below any present version, and two absent versions compare equal. -/
def compareVersions (a b : Option EngineVersionInfo) : Int :=
  match a, b with
  | none, none => 0
  | none, some _ => -1
  | some _, none => 1
  | some a, some b =>
    if a.MajorVersion ≠ b.MajorVersion then a.MajorVersion - b.MajorVersion
    else if a.MinorVersion ≠ b.MinorVersion then a.MinorVersion - b.MinorVersion
    else if a.PatchVersion ≠ b.PatchVersion then a.PatchVersion - b.PatchVersion
    else a.Changelist - b.Changelist

/-- The comparator passed to the fallback sort (line 43):
`(a, b) => compareVersions(b.version, a.version)`, i.e. `a` stays before `b`
exactly when the comparator value is non-positive (descending by version). -/
def engineLe (a b : EngineInstallation) : Bool :=
  compareVersions b.version a.version ≤ 0

/-- The in-place `engineInstallations.sort(...)` of line 43, modelled as the
stable `List.mergeSort` (JavaScript's `Array.prototype.sort` is stable). -/
def sortByVersionDesc (l : List EngineInstallation) : List EngineInstallation :=
  l.mergeSort engineLe

/-- Warning appended at line 36 when the association guid matches nothing. -/
def notFoundWarning (guid : String) : String :=
  "Engine with association ID " ++ guid ++ " not found in installed engines"

/-- `matchedEngine.displayName || matchedEngine.associationId` (line 45):
JavaScript `||` falls through on the empty (falsy) string. -/
def engineLabel (m : EngineInstallation) : String :=
  if m.displayName = "" then m.associationId else m.displayName

/-- Warning appended at line 45 when the fallback engine is used. -/
def usingEngineWarning (m : EngineInstallation) : String :=
  "Using engine " ++ engineLabel m ++ " (not associated with project)"

/-- Match phase (lines 29-33): when an association was obtained and candidates
exist, find the first candidate whose associationId equals the guid. -/
def matchAssociation (ue : Option EngineAssociation)
    (engineInstallations : List EngineInstallation) : Option EngineInstallation :=
  match ue with
  | some ue =>
    if engineInstallations.length > 0 then
      engineInstallations.find? (fun e => e.associationId = ue.guid)
    else none
  | none => none

/-- Warnings state after the match phase (lines 35-37): the not-found warning
is appended only when an association with a truthy (non-empty) guid matched
no candidate while candidates exist. -/
def matchWarnings (ue : Option EngineAssociation) (warnings0 : List String)
    (engineInstallations : List EngineInstallation) : List String :=
  match ue with
  | some ue =>
    if engineInstallations.length > 0 ∧
        matchAssociation (some ue) engineInstallations = none ∧ ue.guid ≠ "" then
      warnings0 ++ [notFoundWarning ue.guid]
    else warnings0
  | none => warnings0

/-- Body of the `try` block of `resolveEngine` after discovery succeeded
(lines 29-52): match phase, then fallback phase (sort descending by version,
pick the head, warn), then assemble the result record. -/
def resolveEngineOk (ue : Option EngineAssociation) (warnings0 : List String)
    (engineInstallations : List EngineInstallation) : EngineDetectionResult :=
  if matchAssociation ue engineInstallations = none ∧ engineInstallations.length > 0 then
    match (sortByVersionDesc engineInstallations).head? with
    | some m =>
      { engine := some m, uprojectEngine := ue,
        warnings := matchWarnings ue warnings0 engineInstallations ++ [usingEngineWarning m],
        error := none }
    | none =>
      { engine := none, uprojectEngine := ue,
        warnings := matchWarnings ue warnings0 engineInstallations, error := none }
  else
    { engine := matchAssociation ue engineInstallations, uprojectEngine := ue,
      warnings := matchWarnings ue warnings0 engineInstallations, error := none }

/-- Outcome of step 1 of `resolveEngine`: `none` when no project path was
supplied, otherwise the association (if any) and warnings produced by
`getEngineAssociationFromProject` (which never throws, having its own catch). -/
def projectAssociation (projectStep : Option (Option EngineAssociation × List String)) :
    Option EngineAssociation :=
  match projectStep with
  | none => none
  | some (a, _) => a

/-- Warnings accumulated from step 1 of `resolveEngine` (line 22). -/
def projectWarnings (projectStep : Option (Option EngineAssociation × List String)) :
    List String :=
  match projectStep with
  | none => []
  | some (_, ws) => ws

/-- `EngineResolver.resolveEngine` (lines 11-60). The effectful discovery step
(`findEngineInstallations`, line 26) is passed in as an `Except`: an
exception escaping it reaches the top-level catch (lines 54-59), which
converts it into an error result carrying the warnings accumulated so far. -/
def resolveEngine (projectStep : Option (Option EngineAssociation × List String))
    (findStep : Except String (List EngineInstallation)) : EngineDetectionResult :=
  match findStep with
  | Except.error msg =>
    { engine := none, uprojectEngine := none,
      warnings := projectWarnings projectStep, error := some msg }
  | Except.ok engineInstallations =>
    resolveEngineOk (projectAssociation projectStep) (projectWarnings projectStep)
      engineInstallations

/-- The filesystem-dependent shape of the project path handled by
`getEngineAssociationFromProject` (lines 71-95), as seen after the IO steps:
a directory with no .uproject file, a path that is neither, a read/parse
exception, or a successfully parsed descriptor whose `EngineAssociation`
field is the given optional string. -/
inductive UprojectSource where
  | dirNoUproject : UprojectSource
  | notUprojectFile : UprojectSource
  | readFailure : String → UprojectSource
  | parsed : Option String → UprojectSource
  deriving DecidableEq, Repr

/-- `EngineResolver.getEngineAssociationFromProject` (lines 65-113).
`if (!uproject.EngineAssociation)` is JavaScript truthiness: an absent field
and the empty string are both falsy and produce the no-association warning. -/
def getEngineAssociationFromProject (source : UprojectSource) :
    Option EngineAssociation × List String :=
  match source with
  | UprojectSource.dirNoUproject =>
    (none, ["No .uproject file found in project directory"])
  | UprojectSource.notUprojectFile =>
    (none, ["Project path is not a .uproject file"])
  | UprojectSource.readFailure msg =>
    (none, ["Failed to read project file: " ++ msg])
  | UprojectSource.parsed field =>
    match field with
    | none => (none, ["No EngineAssociation found in .uproject file"])
    | some value =>
      if value = "" then (none, ["No EngineAssociation found in .uproject file"])
      else (some { guid := value, name := value }, [])

/-- ASCII lower-casing of a path, modelling `String.prototype.toLowerCase`
as used on filesystem paths at line 340. -/
def jsToLower (s : String) : String :=
  String.mk (s.data.map Char.toLower)

/-- The deduplication key of line 340:
`path.normalize(installation.path).toLowerCase()`. `path.normalize` is the
Node standard library (an external collaborator, not part of this source),
so it is passed in as a parameter. -/
def dedupKey (normalize : String → String) (i : EngineInstallation) : String :=
  jsToLower (normalize i.path)

/-- Loop body of `removeDuplicateEngines` (lines 339-345): keep an
installation only when its normalized key has not been seen yet. -/
def removeDuplicateEnginesGo (normalize : String → String) (seen : List String) :
    List EngineInstallation → List EngineInstallation
  | [] => []
  | installation :: rest =>
    if dedupKey normalize installation ∈ seen then
      removeDuplicateEnginesGo normalize seen rest
    else
      installation ::
        removeDuplicateEnginesGo normalize (dedupKey normalize installation :: seen) rest

/-- `EngineResolver.removeDuplicateEngines` (lines 335-348). -/
def removeDuplicateEngines (normalize : String → String)
    (installations : List EngineInstallation) : List EngineInstallation :=
  removeDuplicateEnginesGo normalize [] installations

/-- `versionStr.split('.')` — JavaScript split on a literal dot. -/
def splitOnDotAux (cur : List Char) : List Char → List String
  | [] => [String.mk cur.reverse]
  | c :: rest =>
    if c = '.' then String.mk cur.reverse :: splitOnDotAux [] rest
    else splitOnDotAux (c :: cur) rest

/-- JavaScript `s.split('.')`. -/
def splitOnDot (s : String) : List String :=
  splitOnDotAux [] s.data

/-- `pathMatch[1].replace('_', '.')` (line 313): JavaScript `replace` with a
string pattern replaces only the first occurrence. -/
def replaceFirstUnderscoreAux : List Char → List Char
  | [] => []
  | c :: rest => if c = '_' then '.' :: rest else c :: replaceFirstUnderscoreAux rest

/-- JavaScript `s.replace('_', '.')` — first occurrence only. -/
def replaceFirstUnderscore (s : String) : String :=
  String.mk (replaceFirstUnderscoreAux s.data)

/-- Accumulate a decimal value over a digit list (for `parseIntJS`). -/
def digitsToNatAux (acc : Nat) : List Char → Nat
  | [] => acc
  | c :: rest => digitsToNatAux (acc * 10 + (c.toNat - '0'.toNat)) rest

/-- JavaScript `parseInt` as applied at lines 315-317: on a missing operand
(`undefined`) or a string with no leading digits it yields NaN (modelled as
`none`); otherwise it parses the longest digit prefix. -/
def parseIntJS : Option String → Option Int
  | none => none
  | some s =>
    let ds := s.data.takeWhile Char.isDigit
    if ds = [] then none
    else some (Int.ofNat (digitsToNatAux 0 ds))

/-- JavaScript `x || d` on numbers, as in `parseInt(...) || 5`: NaN and 0 are
falsy, so both fall through to the default. -/
def jsOr (x : Option Int) (d : Int) : Int :=
  match x with
  | some v => if v = 0 then d else v
  | none => d

/-- One character of the regex class `[._]`. -/
def isSep (c : Char) : Bool :=
  c = '.' ∨ c = '_'

/-- Greedy matching of the regex tail `(?:[._]\d+)*` at the current position
(fuel-driven so the definition is executable by the kernel; the fuel is the
remaining input length, which bounds the number of iterations). -/
def grabSepsFuel : Nat → List Char → List Char
  | 0, _ => []
  | _, [] => []
  | fuel + 1, c :: rest =>
    if isSep c then
      let ds := rest.takeWhile Char.isDigit
      if ds = [] then []
      else c :: (ds ++ grabSepsFuel fuel (rest.drop ds.length))
    else []

/-- Greedy matching of `(?:[._]\d+)*`. -/
def grabSeps (cs : List Char) : List Char :=
  grabSepsFuel cs.length cs

/-- Greedy matching of the capture group `(\d+(?:[._]\d+)*)` at the current
position: at least one digit, then separator-digit runs. -/
def grabGroup (cs : List Char) : Option (List Char) :=
  let ds := cs.takeWhile Char.isDigit
  if ds = [] then none
  else some (ds ++ grabSeps (cs.drop ds.length))

/-- Matching of `/UE_(?:5|4)[._]?(\d+(?:[._]\d+)*)/i` at one position:
case-insensitive `UE_`, a `5` or `4`, an optional separator (with the regex
backtracking when consuming it starves the digit group), then the group. -/
def matchVersionAt (cs : List Char) : Option (List Char) :=
  match cs with
  | u :: e :: und :: m :: rest =>
    if (u = 'u' ∨ u = 'U') ∧ (e = 'e' ∨ e = 'E') ∧ und = '_' ∧ (m = '5' ∨ m = '4') then
      match rest with
      | [] => none
      | s :: rest2 =>
        if isSep s then
          match grabGroup rest2 with
          | some g => some g
          | none => grabGroup rest
        else grabGroup rest
    else none
  | _ => none

/-- Leftmost-match scan of the version regex over the whole path string. -/
def scanForVersion (cs : List Char) : Option (List Char) :=
  match cs with
  | [] => none
  | c :: rest =>
    match matchVersionAt (c :: rest) with
    | some g => some g
    | none => scanForVersion rest

/-- `installation.path.match(/UE_(?:5|4)[._]?(\d+(?:[._]\d+)*)/i)` (line 311),
returning the captured group of the leftmost match. -/
def extractVersionToken (s : String) : Option String :=
  (scanForVersion s.data).map String.mk

/-- The version record built by the path heuristic (lines 314-324): each of
major/minor/patch from `parseInt(versionStr.split('.')[i]) || default`, with
changelist, compatible changelist and both flags set to zero. -/
def heuristicVersionFromToken (tok : String) : EngineVersionInfo :=
  let versionStr := replaceFirstUnderscore tok
  let parts := splitOnDot versionStr
  { MajorVersion := jsOr (parseIntJS parts[0]?) 5
    MinorVersion := jsOr (parseIntJS parts[1]?) 0
    PatchVersion := jsOr (parseIntJS parts[2]?) 0
    Changelist := 0
    CompatibleChangelist := 0
    IsLicenseeVersion := 0
    IsPromotedBuild := 0
    BranchName := ""
    BuildId := "" }

/-- `EngineResolver.loadEngineVersionInfo` (lines 285-330). The outcome of
the two version-descriptor file reads (lines 288-308) is passed in as
`fileVersion` (`some` = first descriptor that existed and parsed). The
source mutates the installation in place; the model returns the updated
record. -/
def loadEngineVersionInfo (fileVersion : Option EngineVersionInfo)
    (installation : EngineInstallation) : EngineInstallation :=
  match fileVersion with
  | some versionInfo =>
    { installation with
      version := some versionInfo
      displayName := "UE " ++ toString versionInfo.MajorVersion ++ "." ++
        toString versionInfo.MinorVersion ++ "." ++ toString versionInfo.PatchVersion }
  | none =>
    match extractVersionToken installation.path with
    | some tok =>
      { installation with
        version := some (heuristicVersionFromToken tok)
        displayName := "UE " ++ replaceFirstUnderscore tok }
    | none => installation

/-- `EngineResolver.findEngineInstallations` (lines 118-147): the probes'
concatenated output (`probed`) is deduplicated and version info is loaded
per unique installation; the filesystem contents behind the descriptor
reads are modelled by `fileVersions`. -/
def findEngineInstallations (normalize : String → String)
    (fileVersions : EngineInstallation → Option EngineVersionInfo)
    (probed : List EngineInstallation) : List EngineInstallation :=
  (removeDuplicateEngines normalize probed).map
    (fun i => loadEngineVersionInfo (fileVersions i) i)

/-- Modelled from the spec: the explicit engine-path override is handled by
the command layer, which is not part of the source under verification; per
the spec (section 6), when the caller supplies an override it short-circuits
discovery entirely and becomes the sole candidate, accepted without
re-validation beyond existence. -/
def discoverCandidates (override : Option EngineInstallation)
    (normalize : String → String)
    (fileVersions : EngineInstallation → Option EngineVersionInfo)
    (probed : List EngineInstallation) : List EngineInstallation :=
  match override with
  | some o => [o]
  | none => findEngineInstallations normalize fileVersions probed

/-- Strict lexicographic order on version records by major, minor, patch,
changelist — the order the spec says the comparator realizes. -/
def versionLexLt (a b : EngineVersionInfo) : Prop :=
  a.MajorVersion < b.MajorVersion ∨
    (a.MajorVersion = b.MajorVersion ∧
      (a.MinorVersion < b.MinorVersion ∨
        (a.MinorVersion = b.MinorVersion ∧
          (a.PatchVersion < b.PatchVersion ∨
            (a.PatchVersion = b.PatchVersion ∧ a.Changelist < b.Changelist)))))

/-- The path-heuristic version record exactly as the claim describes it:
major/minor/patch taken from the segments of the extracted string, minor and
patch defaulting to 0 and major defaulting to 5 only when the segment is
unparsable. -/
def claimHeuristicVersion (tok : String) : EngineVersionInfo :=
  let versionStr := replaceFirstUnderscore tok
  let parts := splitOnDot versionStr
  { MajorVersion := (parseIntJS parts[0]?).getD 5
    MinorVersion := (parseIntJS parts[1]?).getD 0
    PatchVersion := (parseIntJS parts[2]?).getD 0
    Changelist := 0
    CompatibleChangelist := 0
    IsLicenseeVersion := 0
    IsPromotedBuild := 0
    BranchName := ""
    BuildId := "" }

/-- The path-heuristic version record as the amended claim describes it:
like `claimHeuristicVersion`, except that major also defaults to 5 when its
segment parses to 0 (JavaScript `|| 5` treats 0 as falsy). -/
def amendedHeuristicVersion (tok : String) : EngineVersionInfo :=
  let versionStr := replaceFirstUnderscore tok
  let parts := splitOnDot versionStr
  { MajorVersion :=
      match parseIntJS parts[0]? with
      | some n => if n = 0 then 5 else n
      | none => 5
    MinorVersion := (parseIntJS parts[1]?).getD 0
    PatchVersion := (parseIntJS parts[2]?).getD 0
    Changelist := 0
    CompatibleChangelist := 0
    IsLicenseeVersion := 0
    IsPromotedBuild := 0
    BranchName := ""
    BuildId := "" }

/-- Concrete fixture: a 5.1.0 version record. -/
def ver510 : EngineVersionInfo := EngineVersionInfo.mk 5 1 0 0 0 0 0 "" ""

/-- Concrete fixture: candidate associated with GUID-1. -/
def candOne : EngineInstallation := EngineInstallation.mk "C:/E1" "GUID-1" "One" none none

/-- Concrete fixture: candidate associated with GUID-2. -/
def candTwo : EngineInstallation := EngineInstallation.mk "C:/E2" "GUID-2" "Two" none none

/-- Concrete fixture: versioned candidate associated with GUID-1. -/
def candVer : EngineInstallation :=
  EngineInstallation.mk "C:/E" "GUID-1" "UE 5.1.0" none (some ver510)

/-- Concrete fixture: association pointing at GUID-1. -/
def assocOne : EngineAssociation := EngineAssociation.mk "GUID-1" "GUID-1"

/-- Concrete fixture: association pointing at the unmatched GUID-9. -/
def assocNine : EngineAssociation := EngineAssociation.mk "GUID-9" "GUID-9"

/-- Concrete fixture: first of two candidates sharing an association id. -/
def candDupA : EngineInstallation := EngineInstallation.mk "C:/A" "GUID-D" "A" none none

/-- Concrete fixture: second of two candidates sharing an association id. -/
def candDupB : EngineInstallation := EngineInstallation.mk "C:/B" "GUID-D" "B" none none

/-- Concrete fixture: association pointing at the shared GUID-D. -/
def assocDup : EngineAssociation := EngineAssociation.mk "GUID-D" "GUID-D"

/-- Concrete fixture: installation at an upper-case path. -/
def instPathA : EngineInstallation := EngineInstallation.mk "C:/UE" "r1" "A" none none

/-- Concrete fixture: installation at the same path in lower case. -/
def instPathB : EngineInstallation := EngineInstallation.mk "c:/ue" "r2" "B" none none

/-- Concrete fixture: installation at a distinct path. -/
def instPathC : EngineInstallation := EngineInstallation.mk "D:/X" "r3" "C" none none

/-- Concrete fixture: installation whose path carries a version token. -/
def instHeur : EngineInstallation :=
  EngineInstallation.mk "C:/Engines/UE_5.3.2/x" "hid" "orig" none none

/-- Concrete fixture: installation whose path token segment parses to 0. -/
def instHeurZero : EngineInstallation :=
  EngineInstallation.mk "UE_4_0" "hid0" "orig0" none none

/-- The comparator is antisymmetric as an integer-valued comparison. -/
theorem compareVersions_antisymm (a b : Option EngineVersionInfo) :
    compareVersions a b = -compareVersions b a := by
  rcases a with _ | a <;> rcases b with _ | b <;> simp only [compareVersions] <;>
    first
    | omega
    | (split_ifs <;> omega)

/-- The comparator is reflexively zero. -/
theorem compareVersions_self (a : Option EngineVersionInfo) :
    compareVersions a a = 0 := by
  rcases a with _ | a <;> simp [compareVersions]

/-- Transitivity of the non-positive side of the comparator. -/
theorem compareVersions_trans {a b c : Option EngineVersionInfo}
    (hab : compareVersions a b ≤ 0) (hbc : compareVersions b c ≤ 0) :
    compareVersions a c ≤ 0 := by
  rcases a with _ | a <;> rcases b with _ | b <;> rcases c with _ | c <;>
    simp only [compareVersions] at * <;>
    first
    | omega
    | (split_ifs at * <;> omega)

/-- The sort predicate is transitive. -/
theorem engineLe_trans (a b c : EngineInstallation)
    (hab : engineLe a b) (hbc : engineLe b c) : engineLe a c := by
  simp only [engineLe, decide_eq_true_eq] at *
  exact compareVersions_trans hbc hab

/-- The sort predicate is total. -/
theorem engineLe_total (a b : EngineInstallation) :
    engineLe a b || engineLe b a := by
  simp only [engineLe, Bool.or_eq_true, decide_eq_true_eq]
  have h := compareVersions_antisymm b.version a.version
  omega

/-- The head of the descending version sort is maximal under the comparator. -/
theorem sortByVersionDesc_head_max {l : List EngineInstallation}
    {m : EngineInstallation} (h : (sortByVersionDesc l).head? = some m) :
    ∀ e ∈ l, compareVersions e.version m.version ≤ 0 := by
  intro e he
  have hp : (l.mergeSort engineLe).Pairwise (fun a b => engineLe a b = true) :=
    List.sorted_mergeSort engineLe_trans engineLe_total l
  simp only [sortByVersionDesc] at h
  obtain ⟨tail, hs⟩ : ∃ tail, l.mergeSort engineLe = m :: tail := by
    rcases hsl : l.mergeSort engineLe with _ | ⟨m1, tail⟩
    · rw [hsl] at h
      simp at h
    · rw [hsl] at h
      simp only [List.head?_cons, Option.some.injEq] at h
      exact ⟨tail, by rw [h]⟩
  have he1 : e ∈ m :: tail := by
    rw [← hs]
    exact (List.mem_mergeSort).mpr he
  rcases List.mem_cons.mp he1 with he2 | he2
  · subst he2
    simp [compareVersions_self]
  · rw [hs] at hp
    have := (List.pairwise_cons.mp hp).1 e he2
    simpa [engineLe, decide_eq_true_eq] using this

/-- Sorting permutes the candidate list. -/
theorem sortByVersionDesc_perm (l : List EngineInstallation) :
    List.Perm (sortByVersionDesc l) l :=
  List.mergeSort_perm l engineLe

/-- Stability of the fallback sort on the version-less candidates: since any
two installations without version metadata compare equal, the stable sort
keeps them in their pre-sort (post-deduplication) relative order. -/
theorem sortByVersionDesc_filter_isNone (l : List EngineInstallation) :
    (sortByVersionDesc l).filter (fun i => i.version.isNone) =
      l.filter (fun i => i.version.isNone) := by
  have hmemnone : ∀ x ∈ l.filter (fun i => i.version.isNone), x.version = none := by
    intro x hx
    have := List.of_mem_filter hx
    simpa [Option.isNone_iff_eq_none] using this
  have hpw : (l.filter (fun i => i.version.isNone)).Pairwise
      (fun a b => engineLe a b = true) := by
    apply List.pairwise_of_forall_mem_list
    intro a ha b hb
    simp [engineLe, hmemnone a ha, hmemnone b hb, compareVersions]
  have hsub : List.Sublist (l.filter (fun i => i.version.isNone)) (l.mergeSort engineLe) :=
    List.sublist_mergeSort engineLe_trans engineLe_total hpw (List.filter_sublist l)
  have hsub2 : List.Sublist (l.filter (fun i => i.version.isNone))
      ((l.mergeSort engineLe).filter (fun i => i.version.isNone)) := by
    have h2 := hsub.filter (fun i => i.version.isNone)
    rw [List.filter_filter] at h2
    simpa only [Bool.and_self] using h2
  have hperm : List.Perm ((l.mergeSort engineLe).filter (fun i => i.version.isNone))
      (l.filter (fun i => i.version.isNone)) :=
    (List.mergeSort_perm l engineLe).filter _
  exact (hsub2.eq_of_length hperm.length_eq.symm).symm

/-- The dedup loop emits a subsequence of its input. -/
theorem removeDuplicateEnginesGo_sublist (normalize : String → String) :
    ∀ (seen : List String) (l : List EngineInstallation),
      List.Sublist (removeDuplicateEnginesGo normalize seen l) l := by
  intro seen l
  induction l generalizing seen with
  | nil => simp [removeDuplicateEnginesGo]
  | cons i rest ih =>
    by_cases h : dedupKey normalize i ∈ seen
    · simp only [removeDuplicateEnginesGo, if_pos h]
      exact (ih seen).cons i
    · simp only [removeDuplicateEnginesGo, if_neg h]
      exact (ih (dedupKey normalize i :: seen)).cons₂ i

/-- Keys of the dedup loop's output avoid the seen set. -/
theorem removeDuplicateEnginesGo_fresh (normalize : String → String) :
    ∀ (seen : List String) (l : List EngineInstallation),
      ∀ y ∈ removeDuplicateEnginesGo normalize seen l, dedupKey normalize y ∉ seen := by
  intro seen l
  induction l generalizing seen with
  | nil => simp [removeDuplicateEnginesGo]
  | cons i rest ih =>
    intro y hy
    by_cases h : dedupKey normalize i ∈ seen
    · rw [removeDuplicateEnginesGo, if_pos h] at hy
      exact ih seen y hy
    · rw [removeDuplicateEnginesGo, if_neg h] at hy
      rcases List.mem_cons.mp hy with hy1 | hy1
      · subst hy1
        exact h
      · have := ih (dedupKey normalize i :: seen) y hy1
        intro hcon
        exact this (List.mem_cons_of_mem _ hcon)

/-- The dedup loop's output has pairwise-distinct keys. -/
theorem removeDuplicateEnginesGo_nodup (normalize : String → String) :
    ∀ (seen : List String) (l : List EngineInstallation),
      ((removeDuplicateEnginesGo normalize seen l).map (dedupKey normalize)).Nodup := by
  intro seen l
  induction l generalizing seen with
  | nil => simp [removeDuplicateEnginesGo]
  | cons i rest ih =>
    by_cases h : dedupKey normalize i ∈ seen
    · rw [removeDuplicateEnginesGo, if_pos h]
      exact ih seen
    · rw [removeDuplicateEnginesGo, if_neg h]
      rw [List.map_cons, List.nodup_cons]
      constructor
      · intro hcon
        rcases List.mem_map.mp hcon with ⟨y, hy, hkey⟩
        have := removeDuplicateEnginesGo_fresh normalize
          (dedupKey normalize i :: seen) rest y hy
        exact this (by rw [hkey]; exact List.mem_cons_self _ _)
      · exact ih (dedupKey normalize i :: seen)

/-- The first input occurrence of each unseen key is retained by the loop. -/
theorem removeDuplicateEnginesGo_first (normalize : String → String) :
    ∀ (l : List EngineInstallation) (seen : List String) (x : EngineInstallation),
      x ∈ l → dedupKey normalize x ∉ seen →
      ∃ y, l.find? (fun z => dedupKey normalize z = dedupKey normalize x) = some y ∧
        y ∈ removeDuplicateEnginesGo normalize seen l ∧
        dedupKey normalize y = dedupKey normalize x := by
  intro l
  induction l with
  | nil => intro seen x hx; exact absurd hx (List.not_mem_nil x)
  | cons i rest ih =>
    intro seen x hx hfresh
    by_cases hk : dedupKey normalize i = dedupKey normalize x
    · refine ⟨i, ?_, ?_, hk⟩
      · exact List.find?_cons_of_pos rest (by simpa using hk)
      · have hi : dedupKey normalize i ∉ seen := by rw [hk]; exact hfresh
        rw [removeDuplicateEnginesGo, if_neg hi]
        exact List.mem_cons_self _ _
    · have hx1 : x ∈ rest := by
        rcases List.mem_cons.mp hx with hx2 | hx2
        · exact absurd (by rw [hx2]) hk
        · exact hx2
      have hfind : (i :: rest).find? (fun z => dedupKey normalize z = dedupKey normalize x) =
          rest.find? (fun z => dedupKey normalize z = dedupKey normalize x) :=
        List.find?_cons_of_neg rest (by simpa using hk)
      by_cases hseen : dedupKey normalize i ∈ seen
      · obtain ⟨y, h1, h2, h3⟩ := ih seen x hx1 hfresh
        refine ⟨y, by rw [hfind]; exact h1, ?_, h3⟩
        rw [removeDuplicateEnginesGo, if_pos hseen]
        exact h2
      · have hfresh1 : dedupKey normalize x ∉ dedupKey normalize i :: seen := by
          intro hcon
          rcases List.mem_cons.mp hcon with hc | hc
          · exact hk hc.symm
          · exact hfresh hc
        obtain ⟨y, h1, h2, h3⟩ := ih (dedupKey normalize i :: seen) x hx1 hfresh1
        refine ⟨y, by rw [hfind]; exact h1, ?_, h3⟩
        rw [removeDuplicateEnginesGo, if_neg hseen]
        exact List.mem_cons_of_mem _ h2

/-- `find?` returns the first match: the list splits at the returned element
and nothing before it satisfies the predicate. -/
theorem find?_first_occurrence {α : Type} {p : α → Bool} :
    ∀ {l : List α} {c : α}, l.find? p = some c →
      ∃ pre post, l = pre ++ c :: post ∧ ∀ e ∈ pre, p e = false := by
  intro l
  induction l with
  | nil => intro c h; simp [List.find?] at h
  | cons a rest ih =>
    intro c h
    by_cases hp : p a
    · rw [List.find?_cons_of_pos rest hp] at h
      obtain rfl : a = c := by simpa using h
      exact ⟨[], rest, rfl, by simp⟩
    · rw [List.find?_cons_of_neg rest hp] at h
      obtain ⟨pre, post, heq, hpre⟩ := ih h
      refine ⟨a :: pre, post, by rw [heq]; rfl, ?_⟩
      intro e he
      rcases List.mem_cons.mp he with he1 | he1
      · subst he1; simpa using hp
      · exact hpre e he1

/-- When the association matches some candidate, the resolver result is the
first match with nothing appended to the warnings. -/
theorem resolveEngine_match_eq (ue : EngineAssociation) (ws : List String)
    (installs : List EngineInstallation) (c : EngineInstallation)
    (hfind : installs.find? (fun e => e.associationId = ue.guid) = some c) :
    resolveEngine (some (some ue, ws)) (Except.ok installs) =
      { engine := some c, uprojectEngine := some ue, warnings := ws, error := none } := by
  have hmem := List.mem_of_find?_eq_some hfind
  have hlen : installs.length > 0 := List.length_pos.mpr (List.ne_nil_of_mem hmem)
  have hm : matchAssociation (some ue) installs = some c := by
    rw [matchAssociation, if_pos hlen, hfind]
  have hw : matchWarnings (some ue) ws installs = ws := by
    rw [matchWarnings, if_neg]
    simp [hm]
  rw [resolveEngine]
  show resolveEngineOk (some ue) ws installs = _
  rw [resolveEngineOk, if_neg (by simp [hm]), hm, hw]

/-- The resolver on a successful-discovery branch never populates `error`. -/
theorem resolveEngineOk_error_none (ue : Option EngineAssociation)
    (ws : List String) (installs : List EngineInstallation) :
    (resolveEngineOk ue ws installs).error = none := by
  rw [resolveEngineOk]
  split
  · split <;> rfl
  · rfl

/-- The resolver with zero candidates selects nothing and warns nothing new. -/
theorem resolveEngineOk_nil (ue : Option EngineAssociation) (ws : List String) :
    resolveEngineOk ue ws [] =
      { engine := none, uprojectEngine := ue, warnings := ws, error := none } := by
  rcases ue with _ | ue <;>
    simp [resolveEngineOk, matchAssociation, matchWarnings]


/-- C1: when the project's engine association guid exactly equals the
associationId of at least one discovered candidate, the resolver returns a
matching candidate as the result's engine and appends no warning at all —
in particular not the "not associated with project" fallback warning. -/
theorem engineResolver_C1 (ue : EngineAssociation) (ws : List String)
    (installs : List EngineInstallation)
    (h : ∃ e ∈ installs, e.associationId = ue.guid) :
    ∃ c, (resolveEngine (some (some ue, ws)) (Except.ok installs)).engine = some c ∧
      c ∈ installs ∧ c.associationId = ue.guid ∧
      (resolveEngine (some (some ue, ws)) (Except.ok installs)).warnings = ws := by
  obtain ⟨e, he, hassoc⟩ := h
  have hsome : (installs.find? (fun e => e.associationId = ue.guid)).isSome :=
    List.find?_isSome.mpr ⟨e, he, by simpa using hassoc⟩
  obtain ⟨c, hc⟩ := Option.isSome_iff_exists.mp hsome
  have heq := resolveEngine_match_eq ue ws installs c hc
  refine ⟨c, by rw [heq], List.mem_of_find?_eq_some hc, ?_, by rw [heq]⟩
  simpa using List.find?_some hc

theorem engineResolver_C1_witness :
    ∃ c, (resolveEngine (some (some assocOne, []))
        (Except.ok [candOne, candTwo])).engine = some c ∧
      c ∈ [candOne, candTwo] ∧ c.associationId = assocOne.guid ∧
      (resolveEngine (some (some assocOne, []))
        (Except.ok [candOne, candTwo])).warnings = [] :=
  engineResolver_C1 assocOne [] [candOne, candTwo] ⟨candOne, by decide, by decide⟩

/-- C2: when the project declares a non-empty association guid that matches
no candidate but candidates exist, the resolved engine is version-maximal
under the comparator and the warnings are extended by the message naming the
unmatched guid followed, in that order, by the fallback message. -/
theorem engineResolver_C2 (ue : EngineAssociation) (ws : List String)
    (installs : List EngineInstallation)
    (hguid : ue.guid ≠ "") (hne : installs ≠ [])
    (hnomatch : ∀ e ∈ installs, e.associationId ≠ ue.guid) :
    ∃ m, (resolveEngine (some (some ue, ws)) (Except.ok installs)).engine = some m ∧
      m ∈ installs ∧
      (∀ e ∈ installs, compareVersions e.version m.version ≤ 0) ∧
      (resolveEngine (some (some ue, ws)) (Except.ok installs)).warnings =
        ws ++ [notFoundWarning ue.guid, usingEngineWarning m] := by
  have hlen : installs.length > 0 := List.length_pos.mpr hne
  have hfind : installs.find? (fun e => e.associationId = ue.guid) = none :=
    List.find?_eq_none.mpr (by intro x hx; simpa using hnomatch x hx)
  have hm : matchAssociation (some ue) installs = none := by
    rw [matchAssociation, if_pos hlen, hfind]
  have hw : matchWarnings (some ue) ws installs = ws ++ [notFoundWarning ue.guid] := by
    rw [matchWarnings, if_pos ⟨hlen, hm, hguid⟩]
  have hsne : sortByVersionDesc installs ≠ [] := by
    intro hcon
    apply hne
    have hlen2 := (sortByVersionDesc_perm installs).length_eq
    rw [hcon] at hlen2
    exact List.length_eq_zero.mp hlen2.symm
  obtain ⟨m, tail, hs⟩ := List.exists_cons_of_ne_nil hsne
  have hhead : (sortByVersionDesc installs).head? = some m := by rw [hs]; rfl
  have hmm : m ∈ installs := by
    have hmem : m ∈ sortByVersionDesc installs := by
      rw [hs]; exact List.mem_cons_self _ _
    exact (sortByVersionDesc_perm installs).mem_iff.mp hmem
  refine ⟨m, ?_, hmm, sortByVersionDesc_head_max hhead, ?_⟩
  · show (resolveEngineOk (some ue) ws installs).engine = some m
    rw [resolveEngineOk, if_pos ⟨hm, hlen⟩, hhead]
  · show (resolveEngineOk (some ue) ws installs).warnings = _
    rw [resolveEngineOk, if_pos ⟨hm, hlen⟩, hhead]
    show matchWarnings (some ue) ws installs ++ [usingEngineWarning m] = _
    rw [hw, List.append_assoc]
    rfl

theorem engineResolver_C2_witness :
    ∃ m, (resolveEngine (some (some assocNine, []))
        (Except.ok [candVer])).engine = some m ∧
      m ∈ [candVer] ∧
      (∀ e ∈ [candVer], compareVersions e.version m.version ≤ 0) ∧
      (resolveEngine (some (some assocNine, []))
        (Except.ok [candVer])).warnings =
        [] ++ [notFoundWarning assocNine.guid, usingEngineWarning m] :=
  engineResolver_C2 assocNine [] [candVer] (by decide) (by decide) (by decide)

/-- C3: the comparator orders present versions lexicographically by major,
minor, patch, changelist (strictly-less and equality characterized); a
version-less installation compares strictly below any versioned one; two
version-less installations compare equal, and the stable fallback sort
therefore keeps version-less candidates in their post-deduplication
relative order. -/
theorem engineResolver_C3 (a b : EngineVersionInfo) (l : List EngineInstallation) :
    (compareVersions (some a) (some b) < 0 ↔ versionLexLt a b) ∧
    (compareVersions (some a) (some b) = 0 ↔
      (a.MajorVersion = b.MajorVersion ∧ a.MinorVersion = b.MinorVersion ∧
        a.PatchVersion = b.PatchVersion ∧ a.Changelist = b.Changelist)) ∧
    compareVersions none (some b) < 0 ∧
    compareVersions none none = 0 ∧
    (sortByVersionDesc l).filter (fun i => i.version.isNone) =
      l.filter (fun i => i.version.isNone) := by
  refine ⟨?_, ?_, by simp [compareVersions], by simp [compareVersions],
    sortByVersionDesc_filter_isNone l⟩
  · simp only [compareVersions, versionLexLt]
    split_ifs <;> omega
  · simp only [compareVersions]
    split_ifs <;> omega

/-- C4: deduplication emits a subsequence of its input (relative order of the
retained entries is preserved), retains at most one entry per
case-insensitive normalized path key, and for every input entry the first
input occurrence of its key is among the retained entries. -/
theorem engineResolver_C4 (normalize : String → String)
    (l : List EngineInstallation) (x : EngineInstallation) (hx : x ∈ l) :
    List.Sublist (removeDuplicateEngines normalize l) l ∧
    ((removeDuplicateEngines normalize l).map (dedupKey normalize)).Nodup ∧
    ∃ y, l.find? (fun z => dedupKey normalize z = dedupKey normalize x) = some y ∧
      y ∈ removeDuplicateEngines normalize l ∧
      dedupKey normalize y = dedupKey normalize x :=
  ⟨removeDuplicateEnginesGo_sublist normalize [] l,
    removeDuplicateEnginesGo_nodup normalize [] l,
    removeDuplicateEnginesGo_first normalize l [] x hx (by simp)⟩

theorem engineResolver_C4_witness :
    List.Sublist (removeDuplicateEngines jsToLower [instPathA, instPathB, instPathC])
      [instPathA, instPathB, instPathC] ∧
    ((removeDuplicateEngines jsToLower [instPathA, instPathB, instPathC]).map
      (dedupKey jsToLower)).Nodup ∧
    ∃ y, [instPathA, instPathB, instPathC].find?
        (fun z => dedupKey jsToLower z = dedupKey jsToLower instPathB) = some y ∧
      y ∈ removeDuplicateEngines jsToLower [instPathA, instPathB, instPathC] ∧
      dedupKey jsToLower y = dedupKey jsToLower instPathB :=
  engineResolver_C4 jsToLower [instPathA, instPathB, instPathC] instPathB (by decide)

/-- C5: with zero candidates the result has no engine and no error and the
resolution completes (the model is a total function); an exception escaping
the orchestration is converted by the single top-level catch into a result
carrying the error message and the warnings accumulated so far, and no
non-throwing run ever populates `error` — the catch is the only such path. -/
theorem engineResolver_C5 (p : Option (Option EngineAssociation × List String))
    (msg : String) (installs : List EngineInstallation) :
    (resolveEngine p (Except.ok [])).engine = none ∧
    (resolveEngine p (Except.ok [])).error = none ∧
    resolveEngine p (Except.error msg) =
      { engine := none, uprojectEngine := none,
        warnings := projectWarnings p, error := some msg } ∧
    (resolveEngine p (Except.ok installs)).error = none := by
  refine ⟨?_, ?_, rfl, ?_⟩
  · show (resolveEngineOk (projectAssociation p) (projectWarnings p) []).engine = none
    rw [resolveEngineOk_nil]
  · show (resolveEngineOk (projectAssociation p) (projectWarnings p) []).error = none
    rw [resolveEngineOk_nil]
  · exact resolveEngineOk_error_none _ _ _

/-- C6 (amended): no resolver result ever has both a populated engine and a
populated error; warnings may accompany either outcome. (The original
"exactly one" claim fails: with zero candidates both fields are absent.) -/
theorem engineResolver_C6 (p : Option (Option EngineAssociation × List String))
    (f : Except String (List EngineInstallation)) :
    ¬ ((resolveEngine p f).engine.isSome = true ∧
        (resolveEngine p f).error.isSome = true) := by
  rintro ⟨he, herr⟩
  cases f with
  | error msg => simp [resolveEngine] at he
  | ok installs =>
    have hnone := resolveEngineOk_error_none (projectAssociation p) (projectWarnings p)
      installs
    have : (resolveEngine p (Except.ok installs)).error = none := hnone
    rw [this] at herr
    simp at herr

theorem engineResolver_C6_witness :
    ¬ ((resolveEngine (some (some assocOne, ["w"]))
          (Except.ok [candOne])).engine.isSome = true ∧
        (resolveEngine (some (some assocOne, ["w"]))
          (Except.ok [candOne])).error.isSome = true) :=
  engineResolver_C6 (some (some assocOne, ["w"])) (Except.ok [candOne])

theorem engineResolver_C6_counterexample :
    ¬ ((resolveEngine none (Except.ok [])).engine.isSome = true ∨
        (resolveEngine none (Except.ok [])).error.isSome = true) := by
  decide

/-- C7 (modelled from the spec, the command layer being outside the source):
a supplied engine-path override short-circuits discovery — the candidate set
is exactly the override — and the resolution then selects the override as
the engine whatever the project association is. -/
theorem engineResolver_C7 (o : EngineInstallation) (normalize : String → String)
    (fileVersions : EngineInstallation → Option EngineVersionInfo)
    (probed : List EngineInstallation) (ue : Option EngineAssociation)
    (ws : List String) :
    discoverCandidates (some o) normalize fileVersions probed = [o] ∧
    (resolveEngineOk ue ws
      (discoverCandidates (some o) normalize fileVersions probed)).engine = some o := by
  refine ⟨rfl, ?_⟩
  show (resolveEngineOk ue ws [o]).engine = some o
  rcases ue with _ | ue
  · rw [resolveEngineOk, if_pos ⟨rfl, by simp⟩]
    simp [sortByVersionDesc]
  · by_cases h : o.associationId = ue.guid
    · have hm : matchAssociation (some ue) [o] = some o := by
        simp [matchAssociation, List.find?, h]
      rw [resolveEngineOk, if_neg (by simp [hm]), hm]
    · have hm : matchAssociation (some ue) [o] = none := by
        simp [matchAssociation, List.find?, h]
      rw [resolveEngineOk, if_pos ⟨hm, by simp⟩]
      simp [sortByVersionDesc]

/-- The code's heuristic record (JavaScript falsy defaults) coincides with
the amended claim's record. -/
theorem heuristicVersion_eq_amended (tok : String) :
    heuristicVersionFromToken tok = amendedHeuristicVersion tok := by
  simp only [heuristicVersionFromToken, amendedHeuristicVersion,
    EngineVersionInfo.mk.injEq, and_true]
  refine ⟨?_, ?_, ?_⟩
  · rcases parseIntJS (splitOnDot (replaceFirstUnderscore tok))[0]? with _ | n <;>
      simp [jsOr]
  · rcases parseIntJS (splitOnDot (replaceFirstUnderscore tok))[1]? with _ | n <;>
      simp [jsOr] <;> omega
  · rcases parseIntJS (splitOnDot (replaceFirstUnderscore tok))[2]? with _ | n <;>
      simp [jsOr] <;> omega

/-- C8 (amended): when the version descriptor files are absent or unparsable
and the path matches the version pattern, the loader populates exactly
major/minor/patch from the extracted token's segments — minor and patch
defaulting to 0 and major defaulting to 5 when the segment is unparsable or
parses to 0 — zeroes the changelist, compatible changelist and both flags,
empties branch and build id, and regenerates displayName from the extracted
string; when the path pattern also fails, the installation is unchanged. -/
theorem engineResolver_C8 (inst : EngineInstallation) (tok : String) :
    (extractVersionToken inst.path = some tok →
      loadEngineVersionInfo none inst =
        { inst with
            version := some (amendedHeuristicVersion tok)
            displayName := "UE " ++ replaceFirstUnderscore tok }) ∧
    (extractVersionToken inst.path = none →
      loadEngineVersionInfo none inst = inst) := by
  constructor
  · intro h
    simp only [loadEngineVersionInfo, h, heuristicVersion_eq_amended]
  · intro h
    simp only [loadEngineVersionInfo, h]

theorem engineResolver_C8_witness :
    loadEngineVersionInfo none instHeur =
      { instHeur with
          version := some (amendedHeuristicVersion "3.2")
          displayName := "UE " ++ replaceFirstUnderscore "3.2" } :=
  (engineResolver_C8 instHeur "3.2").1 (by decide)

theorem engineResolver_C8_counterexample :
    extractVersionToken instHeurZero.path = some "0" ∧
    loadEngineVersionInfo none instHeurZero ≠
      { instHeurZero with
          version := some (claimHeuristicVersion "0")
          displayName := "UE " ++ replaceFirstUnderscore "0" } := by
  decide

/-- C9 (amended): for a parsed project descriptor whose engine-association
field is present with a non-empty string value, the reader returns an
association whose guid and name are both that raw value, with no
GUID-format validation and no warning. (The original claim fails for the
empty string, which JavaScript truthiness treats as an absent field.) -/
theorem engineResolver_C9 (value : String) (h : value ≠ "") :
    getEngineAssociationFromProject (UprojectSource.parsed (some value)) =
      (some { guid := value, name := value }, []) := by
  simp [getEngineAssociationFromProject, h]

theorem engineResolver_C9_witness :
    getEngineAssociationFromProject (UprojectSource.parsed (some "totally not a guid")) =
      (some { guid := "totally not a guid", name := "totally not a guid" }, []) :=
  engineResolver_C9 "totally not a guid" (by decide)

theorem engineResolver_C9_counterexample :
    (getEngineAssociationFromProject (UprojectSource.parsed (some ""))).1 = none ∧
    (getEngineAssociationFromProject (UprojectSource.parsed (some ""))).1 ≠
      some { guid := "", name := "" } ∧
    (getEngineAssociationFromProject (UprojectSource.parsed (some ""))).2 =
      ["No EngineAssociation found in .uproject file"] := by
  decide

/-- C10: when more than one candidate carries the project's association guid,
the resolver returns the first such candidate in post-deduplication
discovery order: the candidate list splits around the chosen engine with no
earlier entry matching the guid. -/
theorem engineResolver_C10 (ue : EngineAssociation) (ws : List String)
    (installs : List EngineInstallation)
    (h : ∃ e ∈ installs, e.associationId = ue.guid) :
    ∃ pre c post, installs = pre ++ c :: post ∧ c.associationId = ue.guid ∧
      (∀ e ∈ pre, e.associationId ≠ ue.guid) ∧
      (resolveEngine (some (some ue, ws)) (Except.ok installs)).engine = some c := by
  obtain ⟨e, he, hassoc⟩ := h
  have hsome : (installs.find? (fun e => e.associationId = ue.guid)).isSome :=
    List.find?_isSome.mpr ⟨e, he, by simpa using hassoc⟩
  obtain ⟨c, hc⟩ := Option.isSome_iff_exists.mp hsome
  obtain ⟨pre, post, heq, hpre⟩ := find?_first_occurrence hc
  refine ⟨pre, c, post, heq, by simpa using List.find?_some hc, ?_, ?_⟩
  · intro x hx
    simpa using hpre x hx
  · rw [resolveEngine_match_eq ue ws installs c hc]

theorem engineResolver_C10_witness :
    ∃ pre c post, ([candDupA, candDupB] : List EngineInstallation) = pre ++ c :: post ∧
      c.associationId = assocDup.guid ∧
      (∀ e ∈ pre, e.associationId ≠ assocDup.guid) ∧
      (resolveEngine (some (some assocDup, []))
        (Except.ok [candDupA, candDupB])).engine = some c :=
  engineResolver_C10 assocDup [] [candDupA, candDupB] ⟨candDupA, by decide, by decide⟩
